import Mathlib

/-!
Verification of the swddude host tools (swdhost.cpp, swddump.cpp and the
unnamed dump variant) against their natural-language specification.

The target side of the SWD connection is modelled as an oracle answering
one request at a time; every interaction (target request with its response,
and every console byte) is recorded in an event trace, so ordering claims
become statements about traces.  Machine words are Nat values truncated
modulo 2^32 at every point where the C code holds a word_t.
-/

namespace Swd

/-- Result type of fallible operations, mirroring Err::Error of
libs/error/error_stack.h: an operation either succeeds or fails. -/
inductive Error where
  | success
  | failure
deriving DecidableEq, Repr

/-- A request the host issues to the target (the Target / SWDDriver methods
that swdhost.cpp and swddump.cpp call).  The halfword and byte reads exist
on the Target interface but are never used by these tools; they are present
so that the absence of narrow accesses is statable. -/
inductive Req where
  | readWord (addr : Nat)
  | readHalfword (addr : Nat)
  | readByte (addr : Nat)
  | readReg (reg : Nat)
  | writeReg (reg : Nat) (val : Nat)
  | writeWord (addr : Nat) (val : Nat)
  | resume
  | swdInitialize
  | enterReset
  | leaveReset
  | dapResetState
  | targetInitialize
  | resetHaltState
  | resetTarget
  | halt
deriving DecidableEq, Repr

/-- The target answer to one request attempt: a word value (ignored for
writes and control operations) or a failure. -/
inductive Resp where
  | val (v : Nat)
  | fail
deriving DecidableEq, Repr

/-- One observable event of a session: a target request together with the
response it received, or a console byte write, or a console flush. -/
inductive Event where
  | target (q : Req) (r : Resp)
  | putc (b : Nat)
  | flush
deriving DecidableEq, Repr

/-- The environment: given the interaction history so far and a request,
the target produces a response.  Transient failures are expressed by
letting the response depend on the history. -/
structure Oracle where
  respond : List Event → Req → Resp

/-- Issue a single request attempt.  A returned value is truncated to
32 bits, as the C code stores every result in a word_t. -/
def doReq (o : Oracle) (tr : List Event) (q : Req) : Event × Option Nat :=
  match o.respond tr q with
  | Resp.val v => (Event.target q (Resp.val (v % 2 ^ 32)), some (v % 2 ^ 32))
  | Resp.fail => (Event.target q Resp.fail, none)

/-- Modelled from the spec: the CheckRetry helper of
libs/error/error_stack.h (not under src/) re-invokes the inner operation on
transient failure, making at most the given number of attempts before
surfacing the error.  Returns the list of attempt events and the value of
the first successful attempt, if any. -/
def checkRetry (o : Oracle) (tr : List Event) (q : Req) : Nat → List Event × Option Nat
  | 0 => ([], none)
  | n + 1 =>
    match doReq o tr q with
    | (e, some v) => ([e], some v)
    | (e, none) =>
      let rest := checkRetry o (tr ++ [e]) q n
      (e :: rest.1, rest.2)

/-- Modelled from the spec: SCB::DFSR of armv6m_v7m.h (not under src/),
the Debug Fault Status Register at 0xE000ED30. -/
def SCB_DFSR : Nat := 0xE000ED30

/-- Modelled from the spec: the DFSR halt-reason mask, bits [4:0]. -/
def DFSR_reason_mask : Nat := 0x1F

/-- Modelled from the spec: the DFSR BKPT reason bit (bit 1). -/
def DFSR_BKPT : Nat := 0x2

/-- Modelled from the spec: DCB::DHCSR of armv6m_v7m.h (not under src/),
the Debug Halting Control and Status Register at 0xE000EDF0. -/
def DCB_DHCSR : Nat := 0xE000EDF0

/-- Modelled from the spec: the DHCSR S_HALT status bit (bit 17). -/
def DHCSR_S_HALT : Nat := 0x20000

/-- Modelled from the spec: ARM::Register::PC, REGSEL number 15. -/
def Register_PC : Nat := 15

/-- Modelled from the spec: ARM::Register::R0, REGSEL number 0. -/
def Register_R0 : Nat := 0

/-- Modelled from the spec: ARM::Register::R1, REGSEL number 1. -/
def Register_R1 : Nat := 1

/-- write_char of swdhost.cpp: putchar(parameter) writes the low byte of
the parameter to stdout, then fflush(stdout); always returns success. -/
def write_char (parameter : Nat) : List Event × Error :=
  ([Event.putc (parameter % 256), Event.flush], Error.success)

/-- handle_halt of swdhost.cpp: read DFSR (retry 100); on a BKPT halt read
PC (retry 100), read the word containing the instruction at PC and not 3
(retry 100), extract the instruction halfword; on BKPT 0xAB read R0 and R1
(retry 100 each), dispatch operation 3 to write_char, advance PC by 2
(retry 100) and resume; every other path fails. -/
def handle_halt (o : Oracle) (tr : List Event) : List Event × Error :=
  match checkRetry o tr (Req.readWord SCB_DFSR) 100 with
  | (e1, none) => (e1, Error.failure)
  | (e1, some dfsr) =>
    if dfsr &&& DFSR_reason_mask = DFSR_BKPT then
      match checkRetry o (tr ++ e1) (Req.readReg Register_PC) 100 with
      | (e2, none) => (e1 ++ e2, Error.failure)
      | (e2, some pc) =>
        match checkRetry o (tr ++ e1 ++ e2) (Req.readWord (pc &&& 0xFFFFFFFC)) 100 with
        | (e3, none) => (e1 ++ e2 ++ e3, Error.failure)
        | (e3, some instr_word) =>
          let instr := (if pc &&& 2 ≠ 0 then instr_word >>> 16 else instr_word &&& 0xFFFF) % 65536
          if instr = 0xBEAB then
            match checkRetry o (tr ++ e1 ++ e2 ++ e3) (Req.readReg Register_R0) 100 with
            | (e4, none) => (e1 ++ e2 ++ e3 ++ e4, Error.failure)
            | (e4, some operation) =>
              match checkRetry o (tr ++ e1 ++ e2 ++ e3 ++ e4) (Req.readReg Register_R1) 100 with
              | (e5, none) => (e1 ++ e2 ++ e3 ++ e4 ++ e5, Error.failure)
              | (e5, some parameter) =>
                if operation = 0x3 then
                  match write_char parameter with
                  | (e6, Error.failure) => (e1 ++ e2 ++ e3 ++ e4 ++ e5 ++ e6, Error.failure)
                  | (e6, Error.success) =>
                    match checkRetry o (tr ++ e1 ++ e2 ++ e3 ++ e4 ++ e5 ++ e6)
                        (Req.writeReg Register_PC ((pc + 2) % 2 ^ 32)) 100 with
                    | (e7, none) => (e1 ++ e2 ++ e3 ++ e4 ++ e5 ++ e6 ++ e7, Error.failure)
                    | (e7, some _) =>
                      match doReq o (tr ++ e1 ++ e2 ++ e3 ++ e4 ++ e5 ++ e6 ++ e7) Req.resume with
                      | (e8, none) =>
                        (e1 ++ e2 ++ e3 ++ e4 ++ e5 ++ e6 ++ e7 ++ [e8], Error.failure)
                      | (e8, some _) =>
                        (e1 ++ e2 ++ e3 ++ e4 ++ e5 ++ e6 ++ e7 ++ [e8], Error.success)
                else
                  (e1 ++ e2 ++ e3 ++ e4 ++ e5, Error.failure)
          else
            (e1 ++ e2 ++ e3, Error.failure)
    else
      (e1, Error.failure)

/-- A deterministic, always-successful target: word reads are answered from
a memory map, register reads from a register file; writes, resume and the
control operations succeed.  This realizes the hypothesis that every
underlying target read and write succeeds. -/
structure TargetData where
  mem : Nat → Nat
  regs : Nat → Nat

/-- The value an always-successful target answers to a request: word reads
from the memory map, register reads from the register file, zero (ignored)
for writes and control operations. -/
def okRespVal (d : TargetData) : Req → Nat
  | Req.readWord a => d.mem a
  | Req.readReg r => d.regs r
  | _ => 0

/-- The oracle of an always-successful target. -/
def okOracle (d : TargetData) : Oracle :=
  ⟨fun _ q => Resp.val (okRespVal d q)⟩

/-- The PC value handle_halt obtains from an always-successful target. -/
def pcOf (d : TargetData) : Nat := d.regs Register_PC % 2 ^ 32

/-- The word-aligned base address of the instruction fetch, pc and not 3. -/
def instrBase (d : TargetData) : Nat := pcOf d &&& 0xFFFFFFFC

/-- The instruction word handle_halt fetches at the aligned base. -/
def instrWordOf (d : TargetData) : Nat := d.mem (instrBase d) % 2 ^ 32

/-- The 16-bit instruction handle_halt extracts: high halfword when pc has
bit 1 set, low halfword otherwise. -/
def instrOf (d : TargetData) : Nat :=
  (if pcOf d &&& 2 ≠ 0 then instrWordOf d >>> 16 else instrWordOf d &&& 0xFFFF) % 65536

/-- A Check sequence over a list of requests, one attempt each, stopping at
the first failure (the Check macro returns from the enclosing function on
error).  Models the initialization preamble of host_main. -/
def runChecks (o : Oracle) (tr : List Event) : List Req → List Event × Option Unit
  | [] => ([], some ())
  | q :: qs =>
    match doReq o tr q with
    | (e, none) => ([e], none)
    | (e, some _) =>
      let rest := runChecks o (tr ++ [e]) qs
      (e :: rest.1, rest.2)

/-- The initialization sequence of host_main of swdhost.cpp, in program
order: swd.initialize, swd.enter_reset, dap.reset_state,
target.initialize, target.reset_halt_state, swd.leave_reset.  The usleep
between enter_reset and reset_state has no observable effect here. -/
def init_reqs : List Req :=
  [Req.swdInitialize, Req.enterReset, Req.dapResetState,
   Req.targetInitialize, Req.resetHaltState, Req.leaveReset]

/-- The polling loop of host_main of swdhost.cpp: read DHCSR (retry 100);
when S_HALT is set, run handle_halt (fatal on error); repeat forever.  The
fuel argument bounds the number of iterations unrolled; a result of none
means the loop is still running when the fuel is exhausted, some e means
the loop exited with result e. -/
def host_loop (o : Oracle) : Nat → List Event → List Event × Option Error
  | 0, _ => ([], none)
  | fuel + 1, tr =>
    match checkRetry o tr (Req.readWord DCB_DHCSR) 100 with
    | (e1, none) => (e1, some Error.failure)
    | (e1, some dhcsr) =>
      if dhcsr &&& DHCSR_S_HALT ≠ 0 then
        match handle_halt o (tr ++ e1) with
        | (e2, Error.failure) => (e1 ++ e2, some Error.failure)
        | (e2, Error.success) =>
          let rest := host_loop o fuel (tr ++ e1 ++ e2)
          (e1 ++ e2 ++ rest.1, rest.2)
      else
        let rest := host_loop o fuel (tr ++ e1)
        (e1 ++ rest.1, rest.2)

/-- host_main of swdhost.cpp: the initialization Check sequence followed by
the polling loop.  The return success statement after the while true loop
has no counterpart because the loop has no normal exit. -/
def host_main (o : Oracle) (fuel : Nat) : List Event × Option Error :=
  match runChecks o [] init_reqs with
  | (es, none) => (es, some Error.failure)
  | (es, some _) =>
    let rest := host_loop o fuel es
    (es ++ rest.1, rest.2)

/-- The SYSCON SYSMEMREMAP register address, written literally as
0x40048000 in swddump.cpp and named SYSCON::SYSMEMREMAP in the unnamed
variant (lpc11xx_13xx.h is not under src/; the address is the literal of
swddump.cpp and the spec). -/
def SYSCON_SYSMEMREMAP : Nat := 0x40048000

/-- The SYSMEMREMAP value 2, mapping user flash at address 0. -/
def SYSMEMREMAP_MAP_USER_FLASH : Nat := 2

/-- unmap_boot_sector of swddump.cpp: write 2 to SYSMEMREMAP. -/
def unmap_boot_sector (o : Oracle) (tr : List Event) : Event × Option Nat :=
  doReq o tr (Req.writeWord SYSCON_SYSMEMREMAP SYSMEMREMAP_MAP_USER_FLASH)

/-- The loop body of dump_flash of swddump.cpp: for unsigned i from the
given start, while i is less than the bound, read the word at i and step
by 4, stopping at the first read error.  The C increment is unsigned
32-bit; it is entered only from dump_flash with i equal 0 and a bound that
is a multiple of 4 below 2 to the 32, so i plus 4 never wraps and plain
Nat addition coincides with the unsigned addition. -/
def dump_loop (o : Oracle) (tr : List Event) (i bound : Nat) : List Event × Error :=
  if i < bound then
    match doReq o tr (Req.readWord i) with
    | (e, none) => ([e], Error.failure)
    | (e, some _) =>
      let rest := dump_loop o (tr ++ [e]) (i + 4) bound
      (e :: rest.1, rest.2)
  else ([], Error.success)
termination_by bound - i
decreasing_by omega

/-- dump_flash of swddump.cpp: read the first n words of flash at
addresses 0, 4, 8, and so on.  The loop bound n times 4 is computed in
unsigned 32-bit arithmetic, hence the reduction modulo 2 to the 32. -/
def dump_flash (o : Oracle) (tr : List Event) (n : Nat) : List Event × Error :=
  dump_loop o tr 0 ((n * 4) % 2 ^ 32)

/-- The tail of run_experiment of swddump.cpp that the dump claims are
about: Check(unmap_boot_sector) followed by Check(dump_flash n). -/
def dump_tool (o : Oracle) (tr : List Event) (n : Nat) : List Event × Error :=
  match unmap_boot_sector o tr with
  | (e, none) => ([e], Error.failure)
  | (e, some _) =>
    let rest := dump_flash o (tr ++ [e]) n
    (e :: rest.1, rest.2)

/-- Modelled from the spec: the typed remote pointer of rptr.h (not under
src/), a 32-bit target address whose arithmetic is in element units; for a
word pointer the element size is 4 bytes. -/
structure RPtr where
  bits : Nat
deriving DecidableEq, Repr

/-- The loop body of dump_flash of the unnamed variant: iterate a word
remote pointer from the start up to the top pointer, reading the word at
each address, stopping at the first read error.  The element increment
adds 4 to the address; as in dump_loop the addition never wraps from the
actual entry point. -/
def dump_loop_r (o : Oracle) (tr : List Event) (i top : RPtr) : List Event × Error :=
  if i.bits < top.bits then
    match doReq o tr (Req.readWord i.bits) with
    | (e, none) => ([e], Error.failure)
    | (e, some _) =>
      let rest := dump_loop_r o (tr ++ [e]) ⟨i.bits + 4⟩ top
      (e :: rest.1, rest.2)
  else ([], Error.success)
termination_by top.bits - i.bits
decreasing_by simp; omega

/-- dump_flash of the unnamed variant src/unnamed/part_000: the top
pointer is built from n times the word size, truncated to the 32-bit
address held by the remote pointer, and the loop runs a word pointer from
address 0 up to it. -/
def dump_flash_r (o : Oracle) (tr : List Event) (n : Nat) : List Event × Error :=
  dump_loop_r o tr ⟨0⟩ ⟨(n * 4) % 2 ^ 32⟩

/-- The outcome of a tool's main: the process exit code and whether the
error stack was printed. -/
structure MainOutcome where
  exit : Nat
  printedErrorStack : Bool
deriving DecidableEq, Repr

/-- main of swdhost.cpp as a function of the results of CommandLine::parse
and of error_main: on a parse failure jump to the failure label (print the
error stack, return 1); otherwise run error_main, with the same failure
path; return 0 when both succeed. -/
def main_swdhost (parse : Error) (emain : Error) : MainOutcome :=
  match parse with
  | Error.failure => ⟨1, true⟩
  | Error.success =>
    match emain with
    | Error.failure => ⟨1, true⟩
    | Error.success => ⟨0, false⟩

/-- main of swddump.cpp, identical control flow to main_swdhost with
error_stack_print on the failure label. -/
def main_swddump (parse : Error) (emain : Error) : MainOutcome :=
  match parse with
  | Error.failure => ⟨1, true⟩
  | Error.success =>
    match emain with
    | Error.failure => ⟨1, true⟩
    | Error.success => ⟨0, false⟩

/-- The addresses of the word-read requests of a trace, in order. -/
def readAddrsOf : List Event → List Nat
  | [] => []
  | Event.target (Req.readWord a) _ :: es => a :: readAddrsOf es
  | _ :: es => readAddrsOf es

/-- The address and value pairs of the successful word reads of a trace,
in order: the values the dump tool reports. -/
def readPairsOf : List Event → List (Nat × Nat)
  | [] => []
  | Event.target (Req.readWord a) (Resp.val v) :: es => (a, v) :: readPairsOf es
  | Event.target (Req.readWord _) Resp.fail :: es => readPairsOf es
  | _ :: es => readPairsOf es

/-- A trace never retries unboundedly: every contiguous run of failing
attempts of one and the same request has length at most 100.  A host that
wrapped any polling access with a bound above 100, or with no bound at
all, would violate this on an always-failing target. -/
def failRunBounded (l : List Event) : Prop :=
  ∀ (pre mid post : List Event) (q : Req), l = pre ++ (mid ++ post) →
    (∀ e ∈ mid, e = Event.target q Resp.fail) → mid.length ≤ 100

/-- A trace that is non-empty and whose last event is not a failing
attempt; appending further events after it cannot extend a failing run
across the boundary. -/
def endsOk (l : List Event) : Prop :=
  ∃ l2 a, l = l2 ++ [a] ∧ ∀ q, a ≠ Event.target q Resp.fail

/-- An oracle that fails every request: exercises the retry bounds. -/
def failOracle : Oracle := ⟨fun _ _ => Resp.fail⟩

/-- An oracle answering every request with one fixed value. -/
def constOracle (v : Nat) : Oracle := ⟨fun _ _ => Resp.val v⟩

/-- Concrete semihosting scenario: a BKPT halt (DFSR holds 2), PC at
0x100 where memory holds the halfword 0xBEAB, operation 3 in R0 and the
byte 88 in R1. -/
def d0 : TargetData :=
  ⟨fun a => if a = SCB_DFSR then 2 else 0xBEAB,
   fun r => if r = Register_PC then 0x100 else if r = Register_R1 then 88
            else if r = Register_R0 then 3 else 0⟩

/-- Concrete scenario with an unsupported semihosting operation: as d0 but
R0 holds 4 (SYS_WRITE0). -/
def d1 : TargetData :=
  ⟨fun a => if a = SCB_DFSR then 2 else 0xBEAB,
   fun r => if r = Register_PC then 0x100 else if r = Register_R1 then 88
            else if r = Register_R0 then 4 else 0⟩

/-! Helper lemmas about the retry combinator and the successful oracle. -/

theorem checkRetry_ok (o : Oracle) (tr : List Event) (q : Req) (n : Nat) (v : Nat)
    (h : o.respond tr q = Resp.val v) :
    checkRetry o tr q (n + 1) = ([Event.target q (Resp.val (v % 2 ^ 32))], some (v % 2 ^ 32)) := by
  simp [checkRetry, doReq, h]

theorem okOracle_respond (d : TargetData) (tr : List Event) (q : Req) :
    (okOracle d).respond tr q = Resp.val (okRespVal d q) := rfl

theorem checkRetry_okOracle (d : TargetData) (tr : List Event) (q : Req) :
    checkRetry (okOracle d) tr q 100 =
      ([Event.target q (Resp.val (okRespVal d q % 2 ^ 32))], some (okRespVal d q % 2 ^ 32)) := by
  rw [show (100 : Nat) = 99 + 1 from rfl]
  exact checkRetry_ok _ _ _ _ _ (okOracle_respond d tr q)

theorem doReq_okOracle (d : TargetData) (tr : List Event) (q : Req) :
    doReq (okOracle d) tr q =
      (Event.target q (Resp.val (okRespVal d q % 2 ^ 32)), some (okRespVal d q % 2 ^ 32)) := by
  simp [doReq, okOracle_respond]

/-- Claim C1: on a BKPT halt where the instruction at PC is 0xBEAB and R0
holds operation 3, handle_halt on an always-successful target performs, in
order: the DFSR read, the PC read, the aligned instruction-word read, the
R0 and R1 reads, a console write of exactly the low byte of R1, a console
flush, a write of PC+2 to the PC register, and a resume, then returns
success.  The trace equality shows R0 is never written and no target write
other than the single PC write occurs in the iteration. -/
theorem handle_halt_sys_writec (d : TargetData) (tr : List Event)
    (hb : d.mem SCB_DFSR % 2 ^ 32 &&& DFSR_reason_mask = DFSR_BKPT)
    (hi : instrOf d = 0xBEAB)
    (hr : d.regs Register_R0 % 2 ^ 32 = 3) :
    handle_halt (okOracle d) tr =
      ([Event.target (Req.readWord SCB_DFSR) (Resp.val (d.mem SCB_DFSR % 2 ^ 32)),
        Event.target (Req.readReg Register_PC) (Resp.val (pcOf d)),
        Event.target (Req.readWord (instrBase d)) (Resp.val (instrWordOf d)),
        Event.target (Req.readReg Register_R0) (Resp.val 3),
        Event.target (Req.readReg Register_R1) (Resp.val (d.regs Register_R1 % 2 ^ 32)),
        Event.putc (d.regs Register_R1 % 256),
        Event.flush,
        Event.target (Req.writeReg Register_PC ((pcOf d + 2) % 2 ^ 32)) (Resp.val 0),
        Event.target Req.resume (Resp.val 0)], Error.success) := by
  simp only [handle_halt, checkRetry_okOracle, doReq_okOracle, okRespVal, write_char]
  rw [hb]
  simp only [pcOf, instrBase, instrWordOf, instrOf] at *
  rw [hi, hr]
  simp
  omega

/-- Claim C1 witness: the scenario d0 satisfies the hypotheses and the
session emits byte 88, flushes, writes PC 0x102 and resumes. -/
theorem handle_halt_sys_writec_witness :
    handle_halt (okOracle d0) [] =
      ([Event.target (Req.readWord 0xE000ED30) (Resp.val 2),
        Event.target (Req.readReg 15) (Resp.val 0x100),
        Event.target (Req.readWord 0x100) (Resp.val 0xBEAB),
        Event.target (Req.readReg 0) (Resp.val 3),
        Event.target (Req.readReg 1) (Resp.val 88),
        Event.putc 88,
        Event.flush,
        Event.target (Req.writeReg 15 0x102) (Resp.val 0),
        Event.target Req.resume (Resp.val 0)], Error.success) := by
  rw [handle_halt_sys_writec d0 [] (by decide) (by decide) (by decide)]
  decide

/-! Structural lemmas about single attempts and bounded retries. -/

theorem doReq_event (o : Oracle) (tr : List Event) (q : Req) :
    ∃ r, (doReq o tr q).1 = Event.target q r := by
  unfold doReq
  cases h : o.respond tr q <;> simp

theorem doReq_some (o : Oracle) (tr : List Event) (q : Req) (v : Nat)
    (h : (doReq o tr q).2 = some v) : (doReq o tr q).1 = Event.target q (Resp.val v) := by
  unfold doReq at *
  cases hr : o.respond tr q with
  | val w => rw [hr] at h; simp at h; simp [hr, h]
  | fail => rw [hr] at h; simp at h

theorem checkRetry_events (o : Oracle) (q : Req) :
    ∀ (n : Nat) (tr : List Event), ∀ e ∈ (checkRetry o tr q n).1, ∃ r, e = Event.target q r := by
  intro n
  induction n with
  | zero => intro tr e he; simp [checkRetry] at he
  | succ n ih =>
    intro tr e he
    unfold checkRetry at he
    rcases hd : doReq o tr q with ⟨ev, res⟩
    obtain ⟨r0, hr0⟩ := doReq_event o tr q
    rw [hd] at he hr0
    cases res with
    | some v =>
      simp at he hr0
      exact ⟨r0, by rw [he, hr0]⟩
    | none =>
      simp at he hr0
      rcases he with he | he
      · exact ⟨r0, by rw [he, hr0]⟩
      · exact ih (tr ++ [ev]) e he

theorem checkRetry_length (o : Oracle) (q : Req) :
    ∀ (n : Nat) (tr : List Event), (checkRetry o tr q n).1.length ≤ n := by
  intro n
  induction n with
  | zero => intro tr; simp [checkRetry]
  | succ n ih =>
    intro tr
    unfold checkRetry
    rcases hd : doReq o tr q with ⟨ev, res⟩
    cases res with
    | some v => simp
    | none =>
      simp only [List.length_cons]
      exact Nat.succ_le_succ (ih (tr ++ [ev]))

theorem checkRetry_success (o : Oracle) (q : Req) :
    ∀ (n : Nat) (tr : List Event) (v : Nat), (checkRetry o tr q n).2 = some v →
      ∃ init, (checkRetry o tr q n).1 = init ++ [Event.target q (Resp.val v)] := by
  intro n
  induction n with
  | zero => intro tr v h; simp [checkRetry] at h
  | succ n ih =>
    intro tr v h
    unfold checkRetry at h ⊢
    rcases hd : doReq o tr q with ⟨ev, res⟩
    rw [hd] at h
    cases res with
    | some w =>
      simp at h ⊢
      have hev := doReq_some o tr q w (by rw [hd])
      rw [hd] at hev
      simp at hev
      exact ⟨[], by simp [hev, h]⟩
    | none =>
      simp at h ⊢
      obtain ⟨init, hinit⟩ := ih (tr ++ [ev]) v h
      exact ⟨ev :: init, by simp [hinit]⟩

theorem checkRetry_failOracle (q : Req) :
    ∀ (n : Nat) (tr : List Event),
      checkRetry failOracle tr q n = (List.replicate n (Event.target q Resp.fail), none) := by
  intro n
  induction n with
  | zero => intro tr; simp [checkRetry]
  | succ n ih =>
    intro tr
    unfold checkRetry
    have hd : doReq failOracle tr q = (Event.target q Resp.fail, none) := by
      simp [doReq, failOracle]
    rw [hd]
    simp [ih, List.replicate_succ]

/-- Decomposing a position in an appended list: the distinguished element
is in the first part, or the first part is wholly inside the prefix. -/
theorem append_split_cases {α : Type} {xs ys pre post : List α} {e : α}
    (h : xs ++ ys = pre ++ e :: post) :
    e ∈ xs ∨ ∃ pre2, pre = xs ++ pre2 ∧ ys = pre2 ++ e :: post := by
  rcases List.append_eq_append_iff.mp h with ⟨a, ha1, ha2⟩ | ⟨c, hc1, hc2⟩
  · exact Or.inr ⟨a, ha1, ha2⟩
  · cases c with
    | nil =>
      simp at hc1 hc2
      exact Or.inr ⟨[], by simp [hc1], by simp [hc2]⟩
    | cons x c2 =>
      left
      have hex : e = x := by
        have : e :: post = x :: (c2 ++ ys) := by simpa using hc2
        exact (List.cons.injEq _ _ _ _).mp this |>.1
      rw [hc1, hex]
      simp

/-- Claim C2: with every underlying target read and write succeeding,
handle_halt fails exactly when the masked DFSR reason is not BKPT, or the
extracted instruction is not 0xBEAB, or the operation code in R0 is not 3;
and on every failing return no write to the PC register and no resume
appears in the trace of that call. -/
theorem handle_halt_error_iff (d : TargetData) (tr : List Event) :
    ((handle_halt (okOracle d) tr).2 = Error.failure ↔
      (d.mem SCB_DFSR % 2 ^ 32 &&& DFSR_reason_mask ≠ DFSR_BKPT ∨
        instrOf d ≠ 0xBEAB ∨ d.regs Register_R0 % 2 ^ 32 ≠ 3)) ∧
    ((handle_halt (okOracle d) tr).2 = Error.failure →
      (∀ v r, Event.target (Req.writeReg Register_PC v) r ∉ (handle_halt (okOracle d) tr).1) ∧
      (∀ r, Event.target Req.resume r ∉ (handle_halt (okOracle d) tr).1)) := by
  have e32 : (2 : Nat) ^ 32 = 4294967296 := by norm_num
  simp only [handle_halt, checkRetry_okOracle, doReq_okOracle, okRespVal, write_char]
  by_cases h1 : d.mem SCB_DFSR % 2 ^ 32 &&& DFSR_reason_mask = DFSR_BKPT
  · rw [if_pos h1]
    by_cases h2 : instrOf d = 0xBEAB
    · have h2r := h2
      simp only [instrOf, pcOf, instrWordOf, instrBase] at h2r
      rw [if_pos h2r]
      by_cases h3 : d.regs Register_R0 % 2 ^ 32 = 3
      · rw [h3, if_pos rfl]
        simp [h1, h2, h3]
        exact e32 ▸ h1
      · rw [if_neg h3]
        simp [h2]
        exact Or.inr (e32 ▸ h3)
    · have h2r := h2
      simp only [instrOf, pcOf, instrWordOf, instrBase] at h2r
      rw [if_neg h2r]
      simp [h2]
  · rw [if_neg h1]
    simp
    exact Or.inl (e32 ▸ h1)

/-- Claim C2 witness: in the concrete scenario d1 the operation code is 4,
so handle_halt fails, and its trace contains no PC write and no resume. -/
theorem handle_halt_error_iff_witness :
    (handle_halt (okOracle d1) []).2 = Error.failure ∧
      (∀ v r, Event.target (Req.writeReg Register_PC v) r ∉ (handle_halt (okOracle d1) []).1) ∧
      (∀ r, Event.target Req.resume r ∉ (handle_halt (okOracle d1) []).1) := by
  have h := handle_halt_error_iff d1 []
  have hfail : (handle_halt (okOracle d1) []).2 = Error.failure :=
    h.1.mpr (Or.inr (Or.inr (by decide)))
  exact ⟨hfail, h.2 hfail⟩

theorem instrWordOf_lt (d : TargetData) : instrWordOf d < 2 ^ 32 := by
  unfold instrWordOf
  exact Nat.mod_lt _ (by norm_num)

/-- The halfword_t truncation in the instruction extraction is the
identity: both halfword candidates are below 2 to the 16. -/
theorem instrOf_eq (d : TargetData) :
    instrOf d = (if pcOf d &&& 2 ≠ 0 then instrWordOf d >>> 16 else instrWordOf d &&& 0xFFFF) := by
  unfold instrOf
  apply Nat.mod_eq_of_lt
  split
  · rw [Nat.shiftRight_eq_div_pow]
    have := instrWordOf_lt d
    omega
  · have := Nat.and_le_right (n := instrWordOf d) (m := 0xFFFF)
    omega

/-- Masking the low two address bits yields a 4-byte-aligned address. -/
theorem and_mask_aligned (x : Nat) : (x &&& 0xFFFFFFFC) % 4 = 0 := by
  have h := Nat.and_pow_two_sub_one_eq_mod (x &&& 0xFFFFFFFC) 2
  norm_num at h
  rw [← h, Nat.and_assoc]
  have h2 : (4294967292 : Nat) &&& 3 = 0 := by decide
  rw [h2]
  exact Nat.and_zero x

/-- Claim C3: after a BKPT halt on an always-successful target, the
instruction is fetched with a single word read at the 4-byte-aligned
address pc and not 3 (no halfword or byte access anywhere, no other word
read after it), and the extracted 16-bit instruction is the high halfword
of that word when pc has bit 1 set, else the low halfword; the comparison
against 0xBEAB decides whether the dispatch continues with the R0 read or
the call fails immediately. -/
theorem handle_halt_fetch (d : TargetData) (tr : List Event)
    (hb : d.mem SCB_DFSR % 2 ^ 32 &&& DFSR_reason_mask = DFSR_BKPT) :
    ∃ rest,
      (handle_halt (okOracle d) tr).1 =
        Event.target (Req.readWord SCB_DFSR) (Resp.val (d.mem SCB_DFSR % 2 ^ 32)) ::
        Event.target (Req.readReg Register_PC) (Resp.val (pcOf d)) ::
        Event.target (Req.readWord (pcOf d &&& 0xFFFFFFFC)) (Resp.val (instrWordOf d)) :: rest ∧
      (pcOf d &&& 0xFFFFFFFC) % 4 = 0 ∧
      (∀ a r, Event.target (Req.readWord a) r ∉ rest) ∧
      (∀ e ∈ (handle_halt (okOracle d) tr).1, ∀ a r,
        e ≠ Event.target (Req.readHalfword a) r ∧ e ≠ Event.target (Req.readByte a) r) ∧
      instrOf d = (if pcOf d &&& 2 ≠ 0 then instrWordOf d >>> 16 else instrWordOf d &&& 0xFFFF) ∧
      (instrOf d ≠ 0xBEAB → (handle_halt (okOracle d) tr).2 = Error.failure ∧ rest = []) ∧
      (instrOf d = 0xBEAB →
        ∃ more, rest = Event.target (Req.readReg Register_R0)
          (Resp.val (d.regs Register_R0 % 2 ^ 32)) :: more) := by
  simp only [handle_halt, checkRetry_okOracle, doReq_okOracle, okRespVal, write_char]
  simp only [if_pos hb]
  by_cases h2 : instrOf d = 0xBEAB
  · have h2r := h2
    simp only [instrOf, pcOf, instrWordOf, instrBase] at h2r
    rw [if_pos h2r]
    by_cases h3 : d.regs Register_R0 % 2 ^ 32 = 3
    · rw [h3, if_pos rfl]
      refine ⟨[Event.target (Req.readReg Register_R0) (Resp.val 3),
        Event.target (Req.readReg Register_R1) (Resp.val (d.regs Register_R1 % 2 ^ 32)),
        Event.putc (d.regs Register_R1 % 2 ^ 32 % 256), Event.flush,
        Event.target (Req.writeReg Register_PC ((pcOf d + 2) % 2 ^ 32)) (Resp.val (0 % 2 ^ 32)),
        Event.target Req.resume (Resp.val (0 % 2 ^ 32))], ?_, and_mask_aligned _, ?_, ?_,
        instrOf_eq d, by simp [h2], fun _ => ⟨_, rfl⟩⟩
      · simp [pcOf, instrWordOf, instrBase, h3]
      · intro a r
        simp
      · intro e he a r
        simp [pcOf, instrWordOf, instrBase] at he
        rcases he with h | h | h | h | h | h | h | h | h <;> subst h <;> simp
    · rw [if_neg h3]
      refine ⟨[Event.target (Req.readReg Register_R0) (Resp.val (d.regs Register_R0 % 2 ^ 32)),
        Event.target (Req.readReg Register_R1) (Resp.val (d.regs Register_R1 % 2 ^ 32))],
        ?_, and_mask_aligned _, ?_, ?_, instrOf_eq d, by simp [h2], fun _ => ⟨_, rfl⟩⟩
      · simp [pcOf, instrWordOf, instrBase]
      · intro a r
        simp
      · intro e he a r
        simp [pcOf, instrWordOf, instrBase] at he
        rcases he with h | h | h | h | h <;> subst h <;> simp
  · have h2r := h2
    simp only [instrOf, pcOf, instrWordOf, instrBase] at h2r
    rw [if_neg h2r]
    refine ⟨[], ?_, and_mask_aligned _, ?_, ?_, instrOf_eq d, fun _ => ⟨rfl, rfl⟩,
      fun hc => absurd hc h2⟩
    · simp [pcOf, instrWordOf, instrBase]
    · intro a r
      simp
    · intro e he a r
      simp [pcOf, instrWordOf, instrBase] at he
      rcases he with h | h | h <;> subst h <;> simp

/-- Claim C3 witness: the scenario d0 has a BKPT halt; the fetch trace is
concrete and the dispatch continues past the instruction comparison. -/
theorem handle_halt_fetch_witness :
    (d0.mem SCB_DFSR % 2 ^ 32 &&& DFSR_reason_mask = DFSR_BKPT) ∧
    ∃ rest,
      (handle_halt (okOracle d0) []).1 =
        Event.target (Req.readWord SCB_DFSR) (Resp.val (d0.mem SCB_DFSR % 2 ^ 32)) ::
        Event.target (Req.readReg Register_PC) (Resp.val (pcOf d0)) ::
        Event.target (Req.readWord (pcOf d0 &&& 0xFFFFFFFC)) (Resp.val (instrWordOf d0)) :: rest ∧
      (pcOf d0 &&& 0xFFFFFFFC) % 4 = 0 ∧
      (∀ a r, Event.target (Req.readWord a) r ∉ rest) ∧
      (∀ e ∈ (handle_halt (okOracle d0) []).1, ∀ a r,
        e ≠ Event.target (Req.readHalfword a) r ∧ e ≠ Event.target (Req.readByte a) r) ∧
      instrOf d0 = (if pcOf d0 &&& 2 ≠ 0 then instrWordOf d0 >>> 16 else instrWordOf d0 &&& 0xFFFF) ∧
      (instrOf d0 ≠ 0xBEAB → (handle_halt (okOracle d0) []).2 = Error.failure ∧ rest = []) ∧
      (instrOf d0 = 0xBEAB →
        ∃ more, rest = Event.target (Req.readReg Register_R0)
          (Resp.val (d0.regs Register_R0 % 2 ^ 32)) :: more) :=
  ⟨by decide, handle_halt_fetch d0 [] (by decide)⟩

/-- An event for a different request never appears among the attempts of a
bounded retry of a request. -/
theorem notin_checkRetry (o : Oracle) (tr : List Event) (q q2 : Req) (n : Nat) (r2 : Resp)
    (hq : q2 ≠ q) : Event.target q2 r2 ∉ (checkRetry o tr q n).1 := by
  intro hm
  obtain ⟨r0, hr0⟩ := checkRetry_events o q n tr _ hm
  injection hr0 with h1 _
  exact hq h1

/-- Locating a PC-write event in the trace shape of the successful
semihosting branch: the write can only be one of the retry attempts of the
PC write-back, whose request value is pc plus 2 truncated, and the PC read
that produced pc lies in the prefix before it. -/
theorem pc_write_locate (pre post e1 e2 e3 e4 e5 e7 tail : List Event)
    (b pc v : Nat) (r : Resp)
    (hn1 : Event.target (Req.writeReg Register_PC v) r ∉ e1)
    (hn2 : Event.target (Req.writeReg Register_PC v) r ∉ e2)
    (hn3 : Event.target (Req.writeReg Register_PC v) r ∉ e3)
    (hn4 : Event.target (Req.writeReg Register_PC v) r ∉ e4)
    (hn5 : Event.target (Req.writeReg Register_PC v) r ∉ e5)
    (hntail : Event.target (Req.writeReg Register_PC v) r ∉ tail)
    (h7all : ∀ e ∈ e7, ∃ r0, e = Event.target (Req.writeReg Register_PC ((pc + 2) % 2 ^ 32)) r0)
    (h2s : ∃ init, e2 = init ++ [Event.target (Req.readReg Register_PC) (Resp.val pc)])
    (hsplit : e1 ++ (e2 ++ (e3 ++ (e4 ++ (e5 ++
        (Event.putc b :: Event.flush :: (e7 ++ tail)))))) =
      pre ++ Event.target (Req.writeReg Register_PC v) r :: post) :
    ∃ p, Event.target (Req.readReg Register_PC) (Resp.val p) ∈ pre ∧
      v = (p + 2) % 2 ^ 32 ∧ v % 2 = p % 2 ∧ v ≠ (p + 1) % 2 ^ 32 := by
  rcases append_split_cases hsplit with hm | ⟨p2, hp2, h2⟩
  · exact absurd hm hn1
  rcases append_split_cases h2 with hm | ⟨p3, hp3, h3⟩
  · exact absurd hm hn2
  rcases append_split_cases h3 with hm | ⟨p4, hp4, h4⟩
  · exact absurd hm hn3
  rcases append_split_cases h4 with hm | ⟨p5, hp5, h5⟩
  · exact absurd hm hn4
  rcases append_split_cases h5 with hm | ⟨p6, hp6, h6⟩
  · exact absurd hm hn5
  have h6x : [Event.putc b, Event.flush] ++ (e7 ++ tail) =
      p6 ++ Event.target (Req.writeReg Register_PC v) r :: post := by simpa using h6
  rcases append_split_cases h6x with hm | ⟨p7, hp7, h7x⟩
  · simp at hm
  rcases append_split_cases h7x with hm | ⟨p8, hp8, h8⟩
  · obtain ⟨r0, hval⟩ := h7all _ hm
    simp only [Event.target.injEq, Req.writeReg.injEq] at hval
    obtain ⟨⟨_, hv⟩, _⟩ := hval
    obtain ⟨init, hinit⟩ := h2s
    refine ⟨pc, ?_, hv, ?_, ?_⟩
    · rw [hp2, hp3, hinit]
      simp
    · rw [hv, Nat.mod_mod_of_dvd _ (by norm_num : (2 : Nat) ∣ 2 ^ 32)]
      omega
    · rw [hv]
      intro hcon
      have hmod : (pc + 1) ≡ (pc + 2) [MOD 2 ^ 32] := hcon.symm
      have hdvd := (Nat.modEq_iff_dvd' (by omega)).mp hmod
      simp at hdvd
  · have : Event.target (Req.writeReg Register_PC v) r ∈ tail := by
      rw [h8]
      simp
    exact absurd this hntail

/-- Claim C7: whenever handle_halt's trace contains a write to the PC
register, the value written is p plus 2 modulo 2 to the 32 where p is the
PC value obtained by the PC read earlier in the same trace; the write
preserves the parity of PC (evenness in particular) and never advances PC
by 1. -/
theorem handle_halt_pc_write (o : Oracle) (tr pre post : List Event) (v : Nat) (r : Resp)
    (hsplit : (handle_halt o tr).1 = pre ++ Event.target (Req.writeReg Register_PC v) r :: post) :
    ∃ p, Event.target (Req.readReg Register_PC) (Resp.val p) ∈ pre ∧
      v = (p + 2) % 2 ^ 32 ∧ v % 2 = p % 2 ∧ v ≠ (p + 1) % 2 ^ 32 := by
  unfold handle_halt at hsplit
  split at hsplit
  case _ e1 heq =>
    exfalso
    simp only at hsplit
    refine notin_checkRetry o tr (Req.readWord SCB_DFSR) (Req.writeReg Register_PC v) 100 r (by simp) ?_
    rw [heq]
    rw [hsplit]
    simp
  case _ e1 dfsr heq =>
    split at hsplit
    case isFalse =>
      exfalso
      simp only at hsplit
      refine notin_checkRetry o tr (Req.readWord SCB_DFSR) (Req.writeReg Register_PC v) 100 r (by simp) ?_
      rw [heq]
      rw [hsplit]
      simp
    case isTrue =>
      split at hsplit
      case _ e2 heq2 =>
        exfalso
        simp only [List.append_assoc] at hsplit
        rcases append_split_cases hsplit with hm | ⟨pre2, hpre, hrest⟩
        · exact notin_checkRetry o tr (Req.readWord SCB_DFSR) (Req.writeReg Register_PC v) 100 r (by simp) (by rw [heq]; exact hm)
        · have hm : Event.target (Req.writeReg Register_PC v) r ∈ e2 := by
            rw [hrest]; simp
          exact notin_checkRetry o (tr ++ e1) (Req.readReg Register_PC) (Req.writeReg Register_PC v) 100 r (by simp) (by rw [heq2]; exact hm)
      case _ e2 pc heq2 =>
        split at hsplit
        case _ e3 heq3 =>
          exfalso
          simp only [List.append_assoc] at hsplit
          rcases append_split_cases hsplit with hm | ⟨pre2, hpre, hrest⟩
          · exact notin_checkRetry o tr (Req.readWord SCB_DFSR) (Req.writeReg Register_PC v) 100 r (by simp) (by rw [heq]; exact hm)
          rcases append_split_cases hrest with hm | ⟨pre3, hpre3, hrest3⟩
          · exact notin_checkRetry o (tr ++ e1) (Req.readReg Register_PC) (Req.writeReg Register_PC v) 100 r (by simp) (by rw [heq2]; exact hm)
          have hm : Event.target (Req.writeReg Register_PC v) r ∈ e3 := by
            rw [hrest3]; simp
          exact notin_checkRetry o (tr ++ e1 ++ e2) (Req.readWord (pc &&& 0xFFFFFFFC)) (Req.writeReg Register_PC v) 100 r (by simp) (by rw [heq3]; exact hm)
        case _ e3 instr_word heq3 =>
          by_cases hbe :
            (if pc &&& 2 ≠ 0 then instr_word >>> 16 else instr_word &&& 0xFFFF) % 65536 = 0xBEAB
          · simp only [if_pos hbe] at hsplit
            split at hsplit
            case _ e4 heq4 =>
              exfalso
              simp only [List.append_assoc] at hsplit
              rcases append_split_cases hsplit with hm | ⟨pre2, hpre, hrest⟩
              · exact notin_checkRetry o tr (Req.readWord SCB_DFSR)
                  (Req.writeReg Register_PC v) 100 r (by simp) (by rw [heq]; exact hm)
              rcases append_split_cases hrest with hm | ⟨pre3, hpre3, hrest3⟩
              · exact notin_checkRetry o (tr ++ e1) (Req.readReg Register_PC)
                  (Req.writeReg Register_PC v) 100 r (by simp) (by rw [heq2]; exact hm)
              rcases append_split_cases hrest3 with hm | ⟨pre4, hpre4, hrest4⟩
              · exact notin_checkRetry o (tr ++ e1 ++ e2) (Req.readWord (pc &&& 0xFFFFFFFC))
                  (Req.writeReg Register_PC v) 100 r (by simp) (by rw [heq3]; exact hm)
              have hm : Event.target (Req.writeReg Register_PC v) r ∈ e4 := by
                rw [hrest4]; simp
              exact notin_checkRetry o (tr ++ e1 ++ e2 ++ e3) (Req.readReg Register_R0)
                (Req.writeReg Register_PC v) 100 r (by simp) (by rw [heq4]; exact hm)
            case _ e4 operation heq4 =>
              split at hsplit
              case _ e5 heq5 =>
                exfalso
                simp only [List.append_assoc] at hsplit
                rcases append_split_cases hsplit with hm | ⟨pre2, hpre, hrest⟩
                · exact notin_checkRetry o tr (Req.readWord SCB_DFSR)
                    (Req.writeReg Register_PC v) 100 r (by simp) (by rw [heq]; exact hm)
                rcases append_split_cases hrest with hm | ⟨pre3, hpre3, hrest3⟩
                · exact notin_checkRetry o (tr ++ e1) (Req.readReg Register_PC)
                    (Req.writeReg Register_PC v) 100 r (by simp) (by rw [heq2]; exact hm)
                rcases append_split_cases hrest3 with hm | ⟨pre4, hpre4, hrest4⟩
                · exact notin_checkRetry o (tr ++ e1 ++ e2) (Req.readWord (pc &&& 0xFFFFFFFC))
                    (Req.writeReg Register_PC v) 100 r (by simp) (by rw [heq3]; exact hm)
                rcases append_split_cases hrest4 with hm | ⟨pre5, hpre5, hrest5⟩
                · exact notin_checkRetry o (tr ++ e1 ++ e2 ++ e3) (Req.readReg Register_R0)
                    (Req.writeReg Register_PC v) 100 r (by simp) (by rw [heq4]; exact hm)
                have hm : Event.target (Req.writeReg Register_PC v) r ∈ e5 := by
                  rw [hrest5]; simp
                exact notin_checkRetry o (tr ++ e1 ++ e2 ++ e3 ++ e4) (Req.readReg Register_R1)
                  (Req.writeReg Register_PC v) 100 r (by simp) (by rw [heq5]; exact hm)
              case _ e5 parameter heq5 =>
                have hn1 : Event.target (Req.writeReg Register_PC v) r ∉ e1 := by
                  have h := notin_checkRetry o tr (Req.readWord SCB_DFSR)
                    (Req.writeReg Register_PC v) 100 r (by simp)
                  rw [heq] at h
                  exact h
                have hn2 : Event.target (Req.writeReg Register_PC v) r ∉ e2 := by
                  have h := notin_checkRetry o (tr ++ e1) (Req.readReg Register_PC)
                    (Req.writeReg Register_PC v) 100 r (by simp)
                  rw [heq2] at h
                  exact h
                have hn3 : Event.target (Req.writeReg Register_PC v) r ∉ e3 := by
                  have h := notin_checkRetry o (tr ++ e1 ++ e2) (Req.readWord (pc &&& 0xFFFFFFFC))
                    (Req.writeReg Register_PC v) 100 r (by simp)
                  rw [heq3] at h
                  exact h
                have hn4 : Event.target (Req.writeReg Register_PC v) r ∉ e4 := by
                  have h := notin_checkRetry o (tr ++ e1 ++ e2 ++ e3) (Req.readReg Register_R0)
                    (Req.writeReg Register_PC v) 100 r (by simp)
                  rw [heq4] at h
                  exact h
                have hn5 : Event.target (Req.writeReg Register_PC v) r ∉ e5 := by
                  have h := notin_checkRetry o (tr ++ e1 ++ e2 ++ e3 ++ e4) (Req.readReg Register_R1)
                    (Req.writeReg Register_PC v) 100 r (by simp)
                  rw [heq5] at h
                  exact h
                have h2s : ∃ init, e2 = init ++
                    [Event.target (Req.readReg Register_PC) (Resp.val pc)] := by
                  have h := checkRetry_success o (Req.readReg Register_PC) 100 (tr ++ e1) pc
                    (by rw [heq2])
                  rw [heq2] at h
                  exact h
                split at hsplit
                case isTrue =>
                  split at hsplit
                  case _ e6 heq6 =>
                    exfalso
                    simp [write_char] at heq6
                  case _ e6 heq6 =>
                    have he6 : e6 = [Event.putc (parameter % 256), Event.flush] := by
                      simp [write_char] at heq6
                      exact heq6.symm
                    subst he6
                    split at hsplit
                    case _ e7 heq7 =>
                      refine pc_write_locate pre post e1 e2 e3 e4 e5 e7 [] (parameter % 256)
                        pc v r hn1 hn2 hn3 hn4 hn5 (by simp) ?_ h2s (by simpa using hsplit)
                      intro e he
                      exact checkRetry_events o _ 100 _ e (by rw [heq7]; exact he)
                    case _ e7 w7 heq7 =>
                      have h7all : ∀ e ∈ e7, ∃ r0,
                          e = Event.target (Req.writeReg Register_PC ((pc + 2) % 2 ^ 32)) r0 :=
                        fun e he => checkRetry_events o _ 100 _ e (by rw [heq7]; exact he)
                      split at hsplit
                      case _ e8 heq8 =>
                        obtain ⟨r8, hr8⟩ := doReq_event o
                          (tr ++ e1 ++ e2 ++ e3 ++ e4 ++ e5 ++
                            [Event.putc (parameter % 256), Event.flush] ++ e7) Req.resume
                        rw [heq8] at hr8
                        simp at hr8
                        exact pc_write_locate pre post e1 e2 e3 e4 e5 e7 [e8] (parameter % 256)
                          pc v r hn1 hn2 hn3 hn4 hn5 (by simp [hr8]) h7all h2s
                          (by simpa using hsplit)
                      case _ e8 w8 heq8 =>
                        obtain ⟨r8, hr8⟩ := doReq_event o
                          (tr ++ e1 ++ e2 ++ e3 ++ e4 ++ e5 ++
                            [Event.putc (parameter % 256), Event.flush] ++ e7) Req.resume
                        rw [heq8] at hr8
                        simp at hr8
                        exact pc_write_locate pre post e1 e2 e3 e4 e5 e7 [e8] (parameter % 256)
                          pc v r hn1 hn2 hn3 hn4 hn5 (by simp [hr8]) h7all h2s
                          (by simpa using hsplit)
                case isFalse =>
                  exfalso
                  simp only [List.append_assoc] at hsplit
                  rcases append_split_cases hsplit with hm | ⟨pre2, hpre, hrest⟩
                  · exact hn1 hm
                  rcases append_split_cases hrest with hm | ⟨pre3, hpre3, hrest3⟩
                  · exact hn2 hm
                  rcases append_split_cases hrest3 with hm | ⟨pre4, hpre4, hrest4⟩
                  · exact hn3 hm
                  rcases append_split_cases hrest4 with hm | ⟨pre5, hpre5, hrest5⟩
                  · exact hn4 hm
                  have hm : Event.target (Req.writeReg Register_PC v) r ∈ e5 := by
                    rw [hrest5]
                    simp
                  exact hn5 hm
          · simp only [if_neg hbe] at hsplit
            exfalso
            simp only [List.append_assoc] at hsplit
            rcases append_split_cases hsplit with hm | ⟨pre2, hpre, hrest⟩
            · exact notin_checkRetry o tr (Req.readWord SCB_DFSR)
                (Req.writeReg Register_PC v) 100 r (by simp) (by rw [heq]; exact hm)
            rcases append_split_cases hrest with hm | ⟨pre3, hpre3, hrest3⟩
            · exact notin_checkRetry o (tr ++ e1) (Req.readReg Register_PC)
                (Req.writeReg Register_PC v) 100 r (by simp) (by rw [heq2]; exact hm)
            have hm : Event.target (Req.writeReg Register_PC v) r ∈ e3 := by
              rw [hrest3]
              simp
            exact notin_checkRetry o (tr ++ e1 ++ e2) (Req.readWord (pc &&& 0xFFFFFFFC))
              (Req.writeReg Register_PC v) 100 r (by simp) (by rw [heq3]; exact hm)

/-- Claim C7 witness: in the concrete scenario d0 the PC write of value
0x102 is preceded by the PC read of 0x100, and 0x102 is 0x100 plus 2. -/
theorem handle_halt_pc_write_witness :
    ∃ p, Event.target (Req.readReg Register_PC) (Resp.val p) ∈
        [Event.target (Req.readWord 0xE000ED30) (Resp.val 2),
         Event.target (Req.readReg 15) (Resp.val 0x100),
         Event.target (Req.readWord 0x100) (Resp.val 0xBEAB),
         Event.target (Req.readReg 0) (Resp.val 3),
         Event.target (Req.readReg 1) (Resp.val 88),
         Event.putc 88,
         Event.flush] ∧
      0x102 = (p + 2) % 2 ^ 32 ∧ 0x102 % 2 = p % 2 ∧ (0x102 : Nat) ≠ (p + 1) % 2 ^ 32 :=
  handle_halt_pc_write (okOracle d0) []
    [Event.target (Req.readWord 0xE000ED30) (Resp.val 2),
     Event.target (Req.readReg 15) (Resp.val 0x100),
     Event.target (Req.readWord 0x100) (Resp.val 0xBEAB),
     Event.target (Req.readReg 0) (Resp.val 3),
     Event.target (Req.readReg 1) (Resp.val 88),
     Event.putc 88,
     Event.flush]
    [Event.target Req.resume (Resp.val 0)] 0x102 (Resp.val 0) (by decide)

/-- Claim C5: in the polling loop, every event that is not a DHCSR read is
preceded by a DHCSR read whose value has the S_HALT bit set: handle_halt is
entered, and any target operation beyond re-reading DHCSR happens, only
after the loop has observed a halted core. -/
theorem host_loop_halt_gate (o : Oracle) (fuel : Nat) (tr pre post : List Event) (e : Event)
    (hsplit : (host_loop o fuel tr).1 = pre ++ e :: post)
    (hne : ∀ r, e ≠ Event.target (Req.readWord DCB_DHCSR) r) :
    ∃ v, Event.target (Req.readWord DCB_DHCSR) (Resp.val v) ∈ pre ∧ v &&& DHCSR_S_HALT ≠ 0 := by
  induction fuel generalizing tr pre post with
  | zero =>
    simp [host_loop] at hsplit
  | succ fuel ih =>
    unfold host_loop at hsplit
    split at hsplit
    case _ e1 heq =>
      exfalso
      simp only at hsplit
      have hm : e ∈ e1 := by
        rw [hsplit]
        simp
      obtain ⟨rr, hrr⟩ := checkRetry_events o _ 100 tr e (by rw [heq]; exact hm)
      exact hne rr hrr
    case _ e1 dhcsr heq =>
      split at hsplit
      case isTrue =>
        rename_i hhalt
        have h1s : ∃ init, e1 = init ++
            [Event.target (Req.readWord DCB_DHCSR) (Resp.val dhcsr)] := by
          have h := checkRetry_success o (Req.readWord DCB_DHCSR) 100 tr dhcsr (by rw [heq])
          rw [heq] at h
          exact h
        obtain ⟨init, hinit⟩ := h1s
        split at hsplit
        case _ e2 heq2 =>
          simp only [List.append_assoc] at hsplit
          rcases append_split_cases hsplit with hm | ⟨pre2, hpre, hrest⟩
          · exfalso
            obtain ⟨rr, hrr⟩ := checkRetry_events o _ 100 tr e (by rw [heq]; exact hm)
            exact hne rr hrr
          · refine ⟨dhcsr, ?_, hhalt⟩
            rw [hpre, hinit]
            simp
        case _ e2 heq2 =>
          simp only [List.append_assoc] at hsplit
          rcases append_split_cases hsplit with hm | ⟨pre2, hpre, hrest⟩
          · exfalso
            obtain ⟨rr, hrr⟩ := checkRetry_events o _ 100 tr e (by rw [heq]; exact hm)
            exact hne rr hrr
          rcases append_split_cases hrest with hm | ⟨pre3, hpre3, hrest3⟩
          · refine ⟨dhcsr, ?_, hhalt⟩
            rw [hpre, hinit]
            simp
          · obtain ⟨v, hv, hvb⟩ := ih (tr ++ (e1 ++ e2)) pre3 post hrest3
            refine ⟨v, ?_, hvb⟩
            rw [hpre, hpre3]
            simp [hv]
      case isFalse =>
        simp only [List.append_assoc] at hsplit
        rcases append_split_cases hsplit with hm | ⟨pre2, hpre, hrest⟩
        · exfalso
          obtain ⟨rr, hrr⟩ := checkRetry_events o _ 100 tr e (by rw [heq]; exact hm)
          exact hne rr hrr
        · obtain ⟨v, hv, hvb⟩ := ih (tr ++ e1) pre2 post hrest
          refine ⟨v, ?_, hvb⟩
          rw [hpre]
          simp [hv]

/-- Claim C5 witness: with a target constantly answering 0x20000, the first
loop iteration reads DHCSR halted and enters handle_halt, whose DFSR read
is a non-DHCSR event preceded by the halted DHCSR read. -/
theorem host_loop_halt_gate_witness :
    ∃ v, Event.target (Req.readWord DCB_DHCSR) (Resp.val v) ∈
        [Event.target (Req.readWord 0xE000EDF0) (Resp.val 0x20000)] ∧ v &&& DHCSR_S_HALT ≠ 0 :=
  host_loop_halt_gate (constOracle 0x20000) 1 []
    [Event.target (Req.readWord 0xE000EDF0) (Resp.val 0x20000)] []
    (Event.target (Req.readWord 0xE000ED30) (Resp.val 0x20000))
    (by decide) (by intro r; simp [DCB_DHCSR])

/-- The polling loop never exits with success: its only exits are the
DHCSR retry budget running out and handle_halt failing, both failures. -/
theorem host_loop_result (o : Oracle) : ∀ (fuel : Nat) (tr : List Event) (e : Error),
    (host_loop o fuel tr).2 = some e → e = Error.failure := by
  intro fuel
  induction fuel with
  | zero => intro tr e h; simp [host_loop] at h
  | succ fuel ih =>
    intro tr e h
    unfold host_loop at h
    split at h
    · simp at h
      exact h.symm
    · split at h
      · split at h
        · simp at h
          exact h.symm
        · exact ih _ e h
      · exact ih _ e h

/-- Claim C6: host_main never returns success: initialization failures and
loop exits all produce failure, and the success return after the infinite
polling loop is unreachable (the loop result is some failure or, when the
unrolling fuel runs out with the loop still polling, none). -/
theorem host_main_never_success (o : Oracle) (fuel : Nat) (tr : List Event) (e : Error) :
    (host_main o fuel).2 ≠ some Error.success ∧
    ((host_loop o fuel tr).2 = some e → e = Error.failure) := by
  constructor
  · intro hc
    unfold host_main at hc
    split at hc
    · simp at hc
    · have h := host_loop_result o fuel _ Error.success hc
      simp at h
  · exact host_loop_result o fuel tr e

/-- Claim C6 witness: with a target that fails every request, host_main
does not return success and the loop exit value is failure. -/
theorem host_main_never_success_witness :
    (host_main failOracle 1).2 ≠ some Error.success ∧ Error.failure = Error.failure :=
  ⟨(host_main_never_success failOracle 1 [] Error.failure).1,
   (host_main_never_success failOracle 1 [] Error.failure).2 (by decide)⟩

/-- A trace of at most 100 events is trivially failing-run bounded. -/
theorem frb_short (l : List Event) (h : l.length ≤ 100) : failRunBounded l := by
  intro pre mid post q hsplit hall
  rw [hsplit] at h
  simp [List.length_append] at h
  omega

/-- Any single bounded-retry block (bound 100) is failing-run bounded. -/
theorem frb_of_checkRetry {o : Oracle} {tr : List Event} {q : Req} {es : List Event}
    {res : Option Nat} (heq : checkRetry o tr q 100 = (es, res)) : failRunBounded es := by
  apply frb_short
  have h := checkRetry_length o q 100 tr
  rw [heq] at h
  exact h

/-- A successful bounded-retry block ends with the successful attempt, a
non-failing event. -/
theorem endsOk_of_checkRetry {o : Oracle} {tr : List Event} {q : Req} {es : List Event}
    {v : Nat} (heq : checkRetry o tr q 100 = (es, some v)) : endsOk es := by
  have h := checkRetry_success o q 100 tr v (by rw [heq])
  rw [heq] at h
  obtain ⟨init, hinit⟩ := h
  exact ⟨init, Event.target q (Resp.val v), hinit, by intro q2; simp⟩

theorem endsOk_append (A B : List Event) (h : endsOk B) : endsOk (A ++ B) := by
  obtain ⟨B2, a, hB2, ha⟩ := h
  exact ⟨A ++ B2, a, by rw [hB2, List.append_assoc], ha⟩

/-- Concatenation preserves the failing-run bound when the first part ends
with a non-failing event: no failing run can straddle the boundary. -/
theorem frb_append (A B : List Event) (hA : failRunBounded A) (hAe : endsOk A)
    (hB : failRunBounded B) : failRunBounded (A ++ B) := by
  intro pre mid post q hsplit hall
  rcases List.append_eq_append_iff.mp hsplit with ⟨w, hw1, hw2⟩ | ⟨w, hw1, hw2⟩
  · exact hB w mid post q hw2 hall
  · rcases List.append_eq_append_iff.mp hw2 with ⟨u, hu1, hu2⟩ | ⟨u, hu1, hu2⟩
    · exact hA pre mid u q (by rw [hw1, hu1]) hall
    · rcases List.eq_nil_or_concat w with hw | ⟨w2, b, hw⟩
      · subst hw
        have hmu : mid = u := by simpa using hu1
        exact hB [] mid post q (by rw [hu2, ← hmu]; simp) hall
      · rw [List.concat_eq_append] at hw
        subst hw
        obtain ⟨A2, a, hA2, hana⟩ := hAe
        exfalso
        have h1 : A.getLast? = some a := by
          rw [hA2]
          simp
        have h2 : A.getLast? = some b := by
          rw [hw1, show pre ++ (w2 ++ [b]) = (pre ++ w2) ++ [b] from by simp]
          simp
        have hab : a = b := by
          rw [h1] at h2
          injection h2
        have hbmid : b ∈ mid := by
          rw [hu1]
          simp
        have hbf := hall b hbmid
        rw [← hab] at hbf
        exact hana q hbf

/-- The trace of handle_halt is failing-run bounded, and on success it
ends with the (successful) resume event. -/
theorem handle_halt_frb (o : Oracle) (tr : List Event) :
    failRunBounded (handle_halt o tr).1 ∧
    ((handle_halt o tr).2 = Error.success → endsOk (handle_halt o tr).1) := by
  unfold handle_halt
  split
  case _ e1 heq1 =>
    exact ⟨frb_of_checkRetry heq1, by intro h; simp at h⟩
  case _ e1 dfsr heq1 =>
    split
    case isFalse =>
      exact ⟨frb_of_checkRetry heq1, by intro h; simp at h⟩
    case isTrue =>
      split
      case _ e2 heq2 =>
        refine ⟨?_, by intro h; simp at h⟩
        exact frb_append e1 e2 (frb_of_checkRetry heq1) (endsOk_of_checkRetry heq1)
          (frb_of_checkRetry heq2)
      case _ e2 pc heq2 =>
        split
        case _ e3 heq3 =>
          refine ⟨?_, by intro h; simp at h⟩
          simp only [List.append_assoc]
          exact frb_append e1 (e2 ++ e3) (frb_of_checkRetry heq1) (endsOk_of_checkRetry heq1)
            (frb_append e2 e3 (frb_of_checkRetry heq2) (endsOk_of_checkRetry heq2)
              (frb_of_checkRetry heq3))
        case _ e3 instr_word heq3 =>
          by_cases hbe :
            (if pc &&& 2 ≠ 0 then instr_word >>> 16 else instr_word &&& 0xFFFF) % 65536 = 0xBEAB
          · simp only [if_pos hbe]
            split
            case _ e4 heq4 =>
              refine ⟨?_, by intro h; simp at h⟩
              simp only [List.append_assoc]
              exact frb_append e1 (e2 ++ (e3 ++ e4))
                (frb_of_checkRetry heq1) (endsOk_of_checkRetry heq1)
                (frb_append e2 (e3 ++ e4) (frb_of_checkRetry heq2) (endsOk_of_checkRetry heq2)
                  (frb_append e3 e4 (frb_of_checkRetry heq3) (endsOk_of_checkRetry heq3)
                    (frb_of_checkRetry heq4)))
            case _ e4 operation heq4 =>
              split
              case _ e5 heq5 =>
                refine ⟨?_, by intro h; simp at h⟩
                simp only [List.append_assoc]
                exact frb_append e1 (e2 ++ (e3 ++ (e4 ++ e5)))
                  (frb_of_checkRetry heq1) (endsOk_of_checkRetry heq1)
                  (frb_append e2 (e3 ++ (e4 ++ e5))
                    (frb_of_checkRetry heq2) (endsOk_of_checkRetry heq2)
                    (frb_append e3 (e4 ++ e5)
                      (frb_of_checkRetry heq3) (endsOk_of_checkRetry heq3)
                      (frb_append e4 e5 (frb_of_checkRetry heq4) (endsOk_of_checkRetry heq4)
                        (frb_of_checkRetry heq5))))
              case _ e5 parameter heq5 =>
                split
                case isFalse =>
                  refine ⟨?_, by intro h; simp at h⟩
                  simp only [List.append_assoc]
                  exact frb_append e1 (e2 ++ (e3 ++ (e4 ++ e5)))
                    (frb_of_checkRetry heq1) (endsOk_of_checkRetry heq1)
                    (frb_append e2 (e3 ++ (e4 ++ e5))
                      (frb_of_checkRetry heq2) (endsOk_of_checkRetry heq2)
                      (frb_append e3 (e4 ++ e5)
                        (frb_of_checkRetry heq3) (endsOk_of_checkRetry heq3)
                        (frb_append e4 e5 (frb_of_checkRetry heq4) (endsOk_of_checkRetry heq4)
                          (frb_of_checkRetry heq5))))
                case isTrue =>
                  split
                  case _ e6 heq6 =>
                    exact absurd heq6 (by simp [write_char])
                  case _ e6 heq6 =>
                    have he6 : e6 = [Event.putc (parameter % 256), Event.flush] := by
                      simp [write_char] at heq6
                      exact heq6.symm
                    subst he6
                    have hfc : failRunBounded [Event.putc (parameter % 256), Event.flush] :=
                      frb_short _ (by simp)
                    have hec : endsOk [Event.putc (parameter % 256), Event.flush] :=
                      ⟨[Event.putc (parameter % 256)], Event.flush, rfl, by intro q2; simp⟩
                    split
                    case _ e7 heq7 =>
                      refine ⟨?_, by intro h; simp at h⟩
                      simp only [List.append_assoc]
                      exact frb_append e1 _
                        (frb_of_checkRetry heq1) (endsOk_of_checkRetry heq1)
                        (frb_append e2 _
                          (frb_of_checkRetry heq2) (endsOk_of_checkRetry heq2)
                          (frb_append e3 _
                            (frb_of_checkRetry heq3) (endsOk_of_checkRetry heq3)
                            (frb_append e4 _
                              (frb_of_checkRetry heq4) (endsOk_of_checkRetry heq4)
                              (frb_append e5 _
                                (frb_of_checkRetry heq5) (endsOk_of_checkRetry heq5)
                                (frb_append _ e7 hfc hec (frb_of_checkRetry heq7))))))
                    case _ e7 w7 heq7 =>
                      split
                      case _ e8 heq8 =>
                        refine ⟨?_, by intro h; simp at h⟩
                        simp only [List.append_assoc]
                        exact frb_append e1 _
                          (frb_of_checkRetry heq1) (endsOk_of_checkRetry heq1)
                          (frb_append e2 _
                            (frb_of_checkRetry heq2) (endsOk_of_checkRetry heq2)
                            (frb_append e3 _
                              (frb_of_checkRetry heq3) (endsOk_of_checkRetry heq3)
                              (frb_append e4 _
                                (frb_of_checkRetry heq4) (endsOk_of_checkRetry heq4)
                                (frb_append e5 _
                                  (frb_of_checkRetry heq5) (endsOk_of_checkRetry heq5)
                                  (frb_append _ _ hfc hec
                                    (frb_append e7 [e8]
                                      (frb_of_checkRetry heq7) (endsOk_of_checkRetry heq7)
                                      (frb_short [e8] (by simp))))))))
                      case _ e8 w8 heq8 =>
                        have hev8 : e8 = Event.target Req.resume (Resp.val w8) := by
                          have h := doReq_some o
                            (tr ++ e1 ++ e2 ++ e3 ++ e4 ++ e5 ++
                              [Event.putc (parameter % 256), Event.flush] ++ e7)
                            Req.resume w8 (by rw [heq8])
                          rw [heq8] at h
                          exact h
                        constructor
                        · simp only [List.append_assoc]
                          exact frb_append e1 _
                            (frb_of_checkRetry heq1) (endsOk_of_checkRetry heq1)
                            (frb_append e2 _
                              (frb_of_checkRetry heq2) (endsOk_of_checkRetry heq2)
                              (frb_append e3 _
                                (frb_of_checkRetry heq3) (endsOk_of_checkRetry heq3)
                                (frb_append e4 _
                                  (frb_of_checkRetry heq4) (endsOk_of_checkRetry heq4)
                                  (frb_append e5 _
                                    (frb_of_checkRetry heq5) (endsOk_of_checkRetry heq5)
                                    (frb_append _ _ hfc hec
                                      (frb_append e7 [e8]
                                        (frb_of_checkRetry heq7) (endsOk_of_checkRetry heq7)
                                        (frb_short [e8] (by simp))))))))
                        · intro _
                          have h8 : endsOk [e8] :=
                            ⟨[], e8, by simp, by rw [hev8]; intro q2; simp⟩
                          simp only [List.append_assoc]
                          exact endsOk_append _ _ (endsOk_append _ _ (endsOk_append _ _
                            (endsOk_append _ _ (endsOk_append _ _ (endsOk_append _ _
                              (endsOk_append _ _ h8))))))
          · simp only [if_neg hbe]
            refine ⟨?_, by intro h; simp at h⟩
            simp only [List.append_assoc]
            exact frb_append e1 (e2 ++ e3) (frb_of_checkRetry heq1) (endsOk_of_checkRetry heq1)
              (frb_append e2 e3 (frb_of_checkRetry heq2) (endsOk_of_checkRetry heq2)
                (frb_of_checkRetry heq3))

/-- The full polling-loop trace is failing-run bounded: across DHCSR polls
and the handle_halt calls they gate, no request is ever attempted more
than 100 consecutive failing times. -/
theorem host_loop_frb (o : Oracle) : ∀ (fuel : Nat) (tr : List Event),
    failRunBounded (host_loop o fuel tr).1 := by
  intro fuel
  induction fuel with
  | zero =>
    intro tr
    exact frb_short _ (by simp [host_loop])
  | succ fuel ih =>
    intro tr
    unfold host_loop
    split
    case _ e1 heq1 =>
      exact frb_of_checkRetry heq1
    case _ e1 dhcsr heq1 =>
      split
      case isFalse =>
        exact frb_append e1 _ (frb_of_checkRetry heq1) (endsOk_of_checkRetry heq1)
          (ih (tr ++ e1))
      case isTrue =>
        split
        case _ e2 heq2 =>
          have hf := (handle_halt_frb o (tr ++ e1)).1
          rw [heq2] at hf
          exact frb_append e1 e2 (frb_of_checkRetry heq1) (endsOk_of_checkRetry heq1) hf
        case _ e2 heq2 =>
          have hf := (handle_halt_frb o (tr ++ e1)).1
          have he := (handle_halt_frb o (tr ++ e1)).2
          rw [heq2] at hf he
          have hend : endsOk e2 := he rfl
          simp only [List.append_assoc]
          exact frb_append e1 _ (frb_of_checkRetry heq1) (endsOk_of_checkRetry heq1)
            (frb_append e2 _ hf hend (ih (tr ++ (e1 ++ e2))))

/-- Against a target that fails every request, handle_halt itself attempts
the DFSR read exactly 100 times and then surfaces the error. -/
theorem handle_halt_failOracle (tr : List Event) :
    handle_halt failOracle tr =
      (List.replicate 100 (Event.target (Req.readWord SCB_DFSR) Resp.fail),
        Error.failure) := by
  unfold handle_halt
  rw [checkRetry_failOracle]

/-- Against a target that fails every request, the polling loop itself
attempts the DHCSR read exactly 100 times and then exits with failure. -/
theorem host_loop_failOracle (fuel : Nat) (tr : List Event) :
    host_loop failOracle (fuel + 1) tr =
      (List.replicate 100 (Event.target (Req.readWord DCB_DHCSR) Resp.fail),
        some Error.failure) := by
  unfold host_loop
  rw [checkRetry_failOracle]

/-- Claim C8: every polling target access of the semihosting host (the
DHCSR poll and all the accesses of handle_halt) is attempted at most 100
times before an error is surfaced: in every possible session trace, no
request is ever attempted more than 100 consecutive failing times, so no
retried operation can loop unboundedly; and the bound is exactly 100:
against a target that always fails, the polling loop itself makes exactly
100 failing DHCSR attempts and exits with failure, and handle_halt makes
exactly 100 failing DFSR attempts and fails. -/
theorem polling_retry_bounded :
    (∀ (o : Oracle) (fuel : Nat) (tr pre mid post : List Event) (q : Req),
      (host_loop o fuel tr).1 = pre ++ (mid ++ post) →
      (∀ e ∈ mid, e = Event.target q Resp.fail) → mid.length ≤ 100) ∧
    (∀ (fuel : Nat) (tr : List Event),
      host_loop failOracle (fuel + 1) tr =
        (List.replicate 100 (Event.target (Req.readWord DCB_DHCSR) Resp.fail),
          some Error.failure)) ∧
    (∀ tr : List Event,
      handle_halt failOracle tr =
        (List.replicate 100 (Event.target (Req.readWord SCB_DFSR) Resp.fail),
          Error.failure)) :=
  ⟨fun o fuel tr => host_loop_frb o fuel tr, host_loop_failOracle, handle_halt_failOracle⟩

/-- Claim C8 witness: in the failing-target session of one iteration the
trace is precisely the maximal failing run of DHCSR attempts, and applying
the bound to it yields its length 100, not more. -/
theorem polling_retry_bounded_witness :
    (List.replicate 100 (Event.target (Req.readWord DCB_DHCSR) Resp.fail)).length ≤ 100 :=
  polling_retry_bounded.1 failOracle 1 [] []
    (List.replicate 100 (Event.target (Req.readWord DCB_DHCSR) Resp.fail)) []
    (Req.readWord DCB_DHCSR)
    (by decide)
    (fun e he => List.eq_of_mem_replicate he)

/-- Claim C9: for both tools, main exits 0 exactly when command-line
parsing and error_main both succeed; on any propagated error it prints the
accumulated error chain and exits 1. -/
theorem main_exit_codes (p e : Error) :
    ((main_swdhost p e).exit = 0 ↔ (p = Error.success ∧ e = Error.success)) ∧
    (¬(p = Error.success ∧ e = Error.success) →
      (main_swdhost p e).exit = 1 ∧ (main_swdhost p e).printedErrorStack = true) ∧
    ((main_swddump p e).exit = 0 ↔ (p = Error.success ∧ e = Error.success)) ∧
    (¬(p = Error.success ∧ e = Error.success) →
      (main_swddump p e).exit = 1 ∧ (main_swddump p e).printedErrorStack = true) := by
  cases p <;> cases e <;> simp [main_swdhost, main_swddump]

/-- Claim C9 witness: a failing error_main makes both mains print the
error stack and exit 1. -/
theorem main_exit_codes_witness :
    (main_swdhost Error.success Error.failure).exit = 1 ∧
    (main_swdhost Error.success Error.failure).printedErrorStack = true :=
  (main_exit_codes Error.success Error.failure).2.1 (by simp)

theorem doReq_none (o : Oracle) (tr : List Event) (q : Req)
    (h : (doReq o tr q).2 = none) : (doReq o tr q).1 = Event.target q Resp.fail := by
  unfold doReq at *
  cases hr : o.respond tr q with
  | val w => rw [hr] at h; simp at h
  | fail => rfl

/-- Splitting one step off the arithmetic address sequence. -/
theorem range_map_step (i m : Nat) :
    (List.range (m + 1)).map (fun j => i + 4 * j) =
      i :: (List.range m).map (fun j => i + 4 + 4 * j) := by
  have hf : ((fun j => i + 4 * j) ∘ Nat.succ) = fun j => i + 4 + 4 * j := by
    funext j
    simp [Function.comp]
    omega
  rw [List.range_succ_eq_map, List.map_cons, List.map_map, hf]
  norm_num

/-- The dump loop from address i with k iterations left: it performs reads
at i, i plus 4, and so on, in order, stopping at the first failure; with no
failure it performs exactly k reads. -/
theorem dump_loop_spec (o : Oracle) : ∀ (k : Nat) (tr : List Event) (i : Nat),
    ∃ m, m ≤ k ∧
      readAddrsOf (dump_loop o tr i (i + 4 * k)).1 = (List.range m).map (fun j => i + 4 * j) ∧
      (∀ e ∈ (dump_loop o tr i (i + 4 * k)).1, ∃ a rr, e = Event.target (Req.readWord a) rr) ∧
      ((dump_loop o tr i (i + 4 * k)).2 = Error.success →
        m = k ∧ (readPairsOf (dump_loop o tr i (i + 4 * k)).1).map Prod.fst =
          (List.range k).map (fun j => i + 4 * j)) ∧
      ((dump_loop o tr i (i + 4 * k)).2 = Error.failure →
        1 ≤ m ∧ (∃ pre, (dump_loop o tr i (i + 4 * k)).1 =
            pre ++ [Event.target (Req.readWord (i + 4 * (m - 1))) Resp.fail]) ∧
        (readPairsOf (dump_loop o tr i (i + 4 * k)).1).map Prod.fst =
          (List.range (m - 1)).map (fun j => i + 4 * j)) := by
  intro k
  induction k with
  | zero =>
    intro tr i
    have hnot : ¬ i < i + 4 * 0 := by omega
    have hstep : dump_loop o tr i (i + 4 * 0) = ([], Error.success) := by
      rw [dump_loop, if_neg hnot]
    refine ⟨0, by omega, ?_, ?_, ?_, ?_⟩ <;> rw [hstep] <;> simp [readAddrsOf, readPairsOf]
  | succ k ih =>
    intro tr i
    have hlt : i < i + 4 * (k + 1) := by omega
    rcases hd : doReq o tr (Req.readWord i) with ⟨ev, res⟩
    cases res with
    | none =>
      have hev : ev = Event.target (Req.readWord i) Resp.fail := by
        have h := doReq_none o tr (Req.readWord i) (by rw [hd])
        rw [hd] at h
        exact h
      subst hev
      have hstep : dump_loop o tr i (i + 4 * (k + 1)) =
          ([Event.target (Req.readWord i) Resp.fail], Error.failure) := by
        rw [dump_loop, if_pos hlt, hd]
      refine ⟨1, by omega, ?_, ?_, ?_, ?_⟩ <;> rw [hstep]
      · simp [readAddrsOf, List.range_succ]
      · intro e he
        simp at he
        subst he
        exact ⟨i, Resp.fail, rfl⟩
      · intro hs
        simp at hs
      · intro _
        refine ⟨by omega, ⟨[], by simp⟩, ?_⟩
        simp [readPairsOf]
    | some v =>
      have hev : ev = Event.target (Req.readWord i) (Resp.val v) := by
        have h := doReq_some o tr (Req.readWord i) v (by rw [hd])
        rw [hd] at h
        exact h
      subst hev
      have harg : i + 4 * (k + 1) = i + 4 + 4 * k := by omega
      have hstep : dump_loop o tr i (i + 4 * (k + 1)) =
          (Event.target (Req.readWord i) (Resp.val v) ::
            (dump_loop o (tr ++ [Event.target (Req.readWord i) (Resp.val v)])
              (i + 4) (i + 4 + 4 * k)).1,
           (dump_loop o (tr ++ [Event.target (Req.readWord i) (Resp.val v)])
              (i + 4) (i + 4 + 4 * k)).2) := by
        rw [dump_loop, if_pos hlt, hd, harg]
      obtain ⟨m, hm, haddr, hev2, hsucc, hfail⟩ :=
        ih (tr ++ [Event.target (Req.readWord i) (Resp.val v)]) (i + 4)
      refine ⟨m + 1, by omega, ?_, ?_, ?_, ?_⟩ <;> rw [hstep]
      · simp only [readAddrsOf]
        rw [haddr, range_map_step]
      · intro e he
        simp at he
        rcases he with he | he
        · subst he
          exact ⟨i, Resp.val v, rfl⟩
        · exact hev2 e he
      · intro hs
        simp only at hs
        obtain ⟨hmk, hpairs⟩ := hsucc hs
        refine ⟨by omega, ?_⟩
        simp only [readPairsOf, List.map_cons]
        rw [hpairs, range_map_step]
      · intro hf
        simp only at hf
        obtain ⟨hm1, ⟨pre, hpre⟩, hpairs⟩ := hfail hf
        refine ⟨by omega, ?_, ?_⟩
        · refine ⟨Event.target (Req.readWord i) (Resp.val v) :: pre, ?_⟩
          have haddr2 : i + 4 * (m + 1 - 1) = i + 4 + 4 * (m - 1) := by omega
          rw [List.cons_append, haddr2, ← hpre]
        · simp only [readPairsOf, List.map_cons]
          rw [hpairs]
          rw [show m + 1 - 1 = m - 1 + 1 from by omega, range_map_step]

/-- Claim C4 (amended to word counts below 2 to the 30, for which the
unsigned 32-bit byte bound n times 4 does not wrap): the dump tool first
writes the value 2 to SYSMEMREMAP at 0x40048000, and then dump_flash
issues word reads at the addresses 0, 4, ..., 4 times (n minus 1), in
increasing address order, stopping at the first read error; when every
access succeeds it issues exactly n reads and produces exactly n word
values in address order. -/
theorem dump_tool_reads (o : Oracle) (tr : List Event) (n : Nat) (hn : n < 2 ^ 30) :
    ∃ r rest, (dump_tool o tr n).1 =
        Event.target (Req.writeWord SYSCON_SYSMEMREMAP SYSMEMREMAP_MAP_USER_FLASH) r :: rest ∧
      ∃ m, m ≤ n ∧
        readAddrsOf rest = (List.range m).map (fun j => 4 * j) ∧
        (∀ e ∈ rest, ∃ a rr, e = Event.target (Req.readWord a) rr) ∧
        ((dump_tool o tr n).2 = Error.success → m = n ∧
          (readPairsOf rest).map Prod.fst = (List.range n).map (fun j => 4 * j)) ∧
        ((dump_tool o tr n).2 = Error.failure → rest = [] ∨
          (1 ≤ m ∧ (∃ pre, rest = pre ++ [Event.target (Req.readWord (4 * (m - 1))) Resp.fail]) ∧
            (readPairsOf rest).map Prod.fst = (List.range (m - 1)).map (fun j => 4 * j))) := by
  unfold dump_tool unmap_boot_sector
  rcases hd : doReq o tr (Req.writeWord SYSCON_SYSMEMREMAP SYSMEMREMAP_MAP_USER_FLASH)
    with ⟨ev, res⟩
  cases res with
  | none =>
    have hev := doReq_none o tr (Req.writeWord SYSCON_SYSMEMREMAP SYSMEMREMAP_MAP_USER_FLASH)
      (by rw [hd])
    rw [hd] at hev
    simp only at hev
    refine ⟨Resp.fail, [], by simp [hev], 0, by omega, by simp [readAddrsOf], by simp, ?_, ?_⟩
    · intro hs
      simp at hs
    · intro _
      exact Or.inl rfl
  | some w =>
    obtain ⟨rw0, hev⟩ :=
      doReq_event o tr (Req.writeWord SYSCON_SYSMEMREMAP SYSMEMREMAP_MAP_USER_FLASH)
    rw [hd] at hev
    simp only at hev
    have hbound : (n * 4) % 2 ^ 32 = 0 + 4 * n := by
      rw [Nat.mod_eq_of_lt (by omega)]
      omega
    have hdf1 : (dump_flash o (tr ++ [ev]) n).1 =
        (dump_loop o (tr ++ [ev]) 0 (0 + 4 * n)).1 := by
      unfold dump_flash
      rw [hbound]
    have hdf2 : (dump_flash o (tr ++ [ev]) n).2 =
        (dump_loop o (tr ++ [ev]) 0 (0 + 4 * n)).2 := by
      unfold dump_flash
      rw [hbound]
    have hfun : (fun j : Nat => 0 + 4 * j) = (fun j : Nat => 4 * j) := by
      funext j
      omega
    obtain ⟨m, hm, haddr, hevs, hsucc, hfail⟩ := dump_loop_spec o n (tr ++ [ev]) 0
    refine ⟨rw0, (dump_flash o (tr ++ [ev]) n).1, by rw [hev], m, hm, ?_, ?_, ?_, ?_⟩
    · rw [hdf1, haddr, hfun]
    · intro e he
      rw [hdf1] at he
      exact hevs e he
    · intro hs
      simp only at hs
      rw [hdf2] at hs
      obtain ⟨hmn, hpairs⟩ := hsucc hs
      refine ⟨hmn, ?_⟩
      rw [hdf1, hpairs, hfun]
    · intro hf
      simp only at hf
      rw [hdf2] at hf
      obtain ⟨hm1, ⟨pre, hpre⟩, hpairs⟩ := hfail hf
      refine Or.inr ⟨hm1, ⟨pre, ?_⟩, ?_⟩
      · rw [hdf1, hpre]
        norm_num
      · rw [hdf1, hpairs, hfun]

/-- Claim C4 counterexample: at word count 2 to the 30 the unsigned 32-bit
loop bound n times 4 wraps to 0, so dump_flash issues no reads at all
rather than 2 to the 30 of them. -/
theorem dump_flash_count_cex :
    (dump_flash (constOracle 0) [] (2 ^ 30)).1 = [] ∧ (2 ^ 30 : Nat) ≠ 0 := by
  constructor
  · unfold dump_flash
    rw [show ((2 : Nat) ^ 30 * 4) % 2 ^ 32 = 0 from by norm_num]
    rw [dump_loop]
    simp
  · norm_num

/-- Claim C4 witness: at word count 2 against an always-successful target
the amended statement is realized concretely. -/
theorem dump_tool_reads_witness :
    ∃ r rest, (dump_tool (constOracle 7) [] 2).1 =
        Event.target (Req.writeWord SYSCON_SYSMEMREMAP SYSMEMREMAP_MAP_USER_FLASH) r :: rest ∧
      ∃ m, m ≤ 2 ∧
        readAddrsOf rest = (List.range m).map (fun j => 4 * j) ∧
        (∀ e ∈ rest, ∃ a rr, e = Event.target (Req.readWord a) rr) ∧
        ((dump_tool (constOracle 7) [] 2).2 = Error.success → m = 2 ∧
          (readPairsOf rest).map Prod.fst = (List.range 2).map (fun j => 4 * j)) ∧
        ((dump_tool (constOracle 7) [] 2).2 = Error.failure → rest = [] ∨
          (1 ≤ m ∧ (∃ pre, rest = pre ++ [Event.target (Req.readWord (4 * (m - 1))) Resp.fail]) ∧
            (readPairsOf rest).map Prod.fst = (List.range (m - 1)).map (fun j => 4 * j))) :=
  dump_tool_reads (constOracle 7) [] 2 (by norm_num)

/-- The two dump loops agree step for step: the plain unsigned index loop
and the typed remote-pointer loop issue the same reads and return the same
result. -/
theorem dump_loop_eq_r (o : Oracle) : ∀ (k : Nat) (tr : List Event) (i bound : Nat),
    bound - i ≤ k → dump_loop o tr i bound = dump_loop_r o tr ⟨i⟩ ⟨bound⟩ := by
  intro k
  induction k with
  | zero =>
    intro tr i bound h
    rw [dump_loop, dump_loop_r]
    rw [if_neg (show ¬ i < bound from by omega),
      if_neg (show ¬ (⟨i⟩ : RPtr).bits < (⟨bound⟩ : RPtr).bits from by simp; omega)]
  | succ k ih =>
    intro tr i bound h
    rw [dump_loop, dump_loop_r]
    by_cases hib : i < bound
    · rw [if_pos hib, if_pos (show (⟨i⟩ : RPtr).bits < (⟨bound⟩ : RPtr).bits from hib)]
      rcases hd : doReq o tr (Req.readWord i) with ⟨ev, res⟩
      cases res with
      | none => rfl
      | some v =>
        simp only
        rw [ih (tr ++ [ev]) (i + 4) bound (by omega)]
    · rw [if_neg hib, if_neg (show ¬ (⟨i⟩ : RPtr).bits < (⟨bound⟩ : RPtr).bits from hib)]

/-- Claim C10: the dump_flash of swddump.cpp and the remote-pointer
dump_flash of the unnamed variant are equivalent: for every word count
they produce identical traces (the same read requests at the same
addresses with the same values, in the same order) and the same result. -/
theorem dump_flash_unnamed_equiv (o : Oracle) (tr : List Event) (n : Nat) :
    dump_flash o tr n = dump_flash_r o tr n := by
  unfold dump_flash dump_flash_r
  exact dump_loop_eq_r o ((n * 4) % 2 ^ 32) tr 0 ((n * 4) % 2 ^ 32) (by omega)

end Swd
